import Mathlib

/-!
Conveyor: loading bars into a hold through a window.

A shallow embedding of `src/conveyor.cpp` (struct `Bar`, class `Conveyor`).

Modelling decisions:

* `double` values are modelled by exact rationals `ℚ`. `processBar` computes with them
  exactly; infinities and NaN are outside the model. Where a property of the counters is
  exact only up to rounding, the same code is also given with every arithmetic operation
  rounded as IEEE 754 binary64 does (`roundDouble`, `processBarDouble`), to evaluate it on
  concrete bars.
* `log` only writes to the console; the engine state it leaves untouched, so it is omitted.
  The decision messages that `processBar` logs are kept as the `Decision` value returned
  next to the new state.
* `std::queue` is a list (push at the back, pop at the front), `std::set` of tuples is a
  list without repetitions (`find` is membership, `insert` is `setInsert`).
* The diagnostic path string, built by appending one fixed token per rotation, is the list of
  the rotations taken; `renderPath` gives the text.
* The `while (!q.empty())` loop is `bfsLoop`, with a fuel argument counting evaluations of
  the loop condition; `none` means the fuel ran out.
-/

namespace Conveyor

/-! ## Bar -/

/-- The struct `Bar`: current orientation, initial extents and volume. -/
structure Bar where
  w : ℚ
  l : ℚ
  h : ℚ
  initial_w : ℚ
  initial_l : ℚ
  initial_h : ℚ
  volume : ℚ
  deriving DecidableEq, Repr

/-- The constructor `Bar(width, length, height)`. -/
def Bar.new (width length height : ℚ) : Bar :=
  { w := width, l := length, h := height,
    initial_w := width, initial_l := length, initial_h := height,
    volume := width * length * height }

/-- `op1_TopToFront`: `swap(l, h)`. -/
def Bar.op1_TopToFront (b : Bar) : Bar := { b with l := b.h, h := b.l }

/-- `op2_TopToSide`: `swap(w, h)`. -/
def Bar.op2_TopToSide (b : Bar) : Bar := { b with w := b.h, h := b.w }

/-- `op3_FrontToSide`: `swap(w, l)`. -/
def Bar.op3_FrontToSide (b : Bar) : Bar := { b with w := b.l, l := b.w }

/-- `getTuple`: the current orientation as a key for the visited set. -/
def Bar.getTuple (b : Bar) : ℚ × ℚ × ℚ := (b.w, b.l, b.h)

/-- The three rotations, as identifiers. -/
inductive Op where
  | op1
  | op2
  | op3
  deriving DecidableEq, Repr

/-- Apply the rotation named by an identifier. -/
def Bar.rotate (b : Bar) : Op → Bar
  | Op.op1 => b.op1_TopToFront
  | Op.op2 => b.op2_TopToSide
  | Op.op3 => b.op3_FrontToSide

/-- Apply a finite sequence of rotations, first element first. -/
def Bar.rotateAll (b : Bar) (ops : List Op) : Bar := ops.foldl Bar.rotate b

/-- The token appended to the path string for a rotation. -/
def Op.token : Op → String
  | Op.op1 => " -> OP1(Верх->Перед)"
  | Op.op2 => " -> OP2(Верх->Бік)"
  | Op.op3 => " -> OP3(Перед->Бік)"

/-- The path string of the source for a list of rotations. -/
def renderPath (path : List Op) : String :=
  path.foldl (fun s o => s ++ o.token) "ПОЧАТОК"

/-! ## Conveyor -/

/-- The private fields of class `Conveyor`. -/
structure State where
  holdVolume : ℚ
  remainingVolume : ℚ
  windowWidth : ℚ
  windowHeight : ℚ
  totalLoadedVolume : ℚ
  totalDroppedVolume : ℚ
  quietMode : Bool
  deriving DecidableEq, Repr

/-- The constructor `Conveyor(vol, winW, winH, quiet)`. -/
def State.new (vol winW winH : ℚ) (quiet : Bool) : State :=
  { holdVolume := vol, remainingVolume := vol,
    windowWidth := winW, windowHeight := winH,
    totalLoadedVolume := 0, totalDroppedVolume := 0,
    quietMode := quiet }

/-- `canBarEverFit`: the six tests in the order of the source. -/
def canBarEverFit (c : State) (d1 d2 d3 : ℚ) : Bool :=
  let winW := c.windowWidth
  let winH := c.windowHeight
  if d1 ≤ winW ∧ d2 ≤ winH then true
  else if d1 ≤ winW ∧ d3 ≤ winH then true
  else if d2 ≤ winW ∧ d1 ≤ winH then true
  else if d2 ≤ winW ∧ d3 ≤ winH then true
  else if d3 ≤ winW ∧ d1 ≤ winH then true
  else if d3 ≤ winW ∧ d2 ≤ winH then true
  else false

/-- `visited.insert(t)` on a set kept as a list without repetitions. -/
def setInsert (t : ℚ × ℚ × ℚ) (visited : List (ℚ × ℚ × ℚ)) : List (ℚ × ℚ × ℚ) :=
  if t ∈ visited then visited else t :: visited

/-- The two containers of the search: the queue `q` and the set `visited`. -/
structure Search where
  q : List (Bar × List Op)
  visited : List (ℚ × ℚ × ℚ)
  deriving DecidableEq, Repr

/-- One of the three blocks "apply the operation to a copy, and if its tuple is not in
`visited`, insert it and push the copy with the extended path". -/
def explore (b : Bar) (path : List Op) (o : Op) (s : Search) : Search :=
  let b' := b.rotate o
  if b'.getTuple ∉ s.visited then
    { q := s.q ++ [(b', path ++ [o])], visited := setInsert b'.getTuple s.visited }
  else s

/-- The part of the loop body after the success test: operations 1, 2, 3 in turn. -/
def expand (b : Bar) (path : List Op) (s : Search) : Search :=
  explore b path Op.op3 (explore b path Op.op2 (explore b path Op.op1 s))

/-- The loop `while (!q.empty())` of `processBar`. The result is `none` when the fuel runs
out, `some none` when the queue empties and the loop is left, and `some (some (b, path))`
when the success test holds for the dequeued `b` and the function returns from inside. -/
def bfsLoop (windowWidth windowHeight : ℚ) : Nat → Search → Option (Option (Bar × List Op))
  | 0, _ => none
  | _ + 1, ⟨[], _⟩ => some none
  | fuel + 1, ⟨(b, path) :: rest, visited⟩ =>
    if b.w ≤ windowWidth ∧ b.h ≤ windowHeight then some (some (b, path))
    else bfsLoop windowWidth windowHeight fuel (expand b path ⟨rest, visited⟩)

/-- The containers right before the loop: the bar is pushed with the start path and its
tuple is inserted into the empty set. -/
def Search.init (bar : Bar) : Search :=
  { q := [(bar, [])], visited := setInsert bar.getTuple [] }

/-- What `processBar` decided, after the message it logs. -/
inductive Decision where
  | dropNoFit
  | dropVolume
  | loaded (b : Bar) (path : List Op)
  | logicError
  deriving DecidableEq, Repr

/-- `processBar`: the new state and the decision, or `none` when the fuel given to the
search loop runs out. -/
def processBar (fuel : Nat) (c : State) (initial_w initial_l initial_h : ℚ) :
    Option (State × Decision) :=
  let bar := Bar.new initial_w initial_l initial_h
  let barVolume := bar.volume
  if !canBarEverFit c bar.initial_w bar.initial_l bar.initial_h then
    some ({ c with totalDroppedVolume := c.totalDroppedVolume + barVolume }, Decision.dropNoFit)
  else if barVolume > 0.5 * c.remainingVolume then
    some ({ c with totalDroppedVolume := c.totalDroppedVolume + barVolume }, Decision.dropVolume)
  else
    match bfsLoop c.windowWidth c.windowHeight fuel (Search.init bar) with
    | none => none
    | some (some (b, path)) =>
      some ({ c with remainingVolume := c.remainingVolume - barVolume,
                     totalLoadedVolume := c.totalLoadedVolume + barVolume },
            Decision.loaded b path)
    | some none =>
      some ({ c with totalDroppedVolume := c.totalDroppedVolume + barVolume },
            Decision.logicError)

/-- The caller's loop: `processBar` on each bar of a list in order. -/
def processBars (fuel : Nat) : State → List (ℚ × ℚ × ℚ) → Option State
  | c, [] => some c
  | c, (w, l, h) :: bars =>
    match processBar fuel c w l h with
    | none => none
    | some (c', _) => processBars fuel c' bars

/-- The sum of `w * l * h` over a list of bars. -/
def totalVolume (bars : List (ℚ × ℚ × ℚ)) : ℚ :=
  (bars.map (fun t => t.1 * t.2.1 * t.2.2)).sum

/-! ## Notions used to state and prove properties of the search -/

/-- A rotation acting on an orientation triple (w, l, h). -/
def rotTuple : Op → ℚ × ℚ × ℚ → ℚ × ℚ × ℚ
  | Op.op1, (w, l, h) => (w, h, l)
  | Op.op2, (w, l, h) => (h, l, w)
  | Op.op3, (w, l, h) => (l, w, h)

/-- The six rearrangements of a triple. -/
def perms6 : ℚ × ℚ × ℚ → List (ℚ × ℚ × ℚ)
  | (w, l, h) => [(w, l, h), (w, h, l), (h, l, w), (l, w, h), (l, h, w), (h, w, l)]

/-- The success test of the loop, on an orientation triple: width and height fit. -/
def fitsWindow (windowWidth windowHeight : ℚ) (t : ℚ × ℚ × ℚ) : Prop :=
  t.1 ≤ windowWidth ∧ t.2.2 ≤ windowHeight

instance (windowWidth windowHeight : ℚ) (t : ℚ × ℚ × ℚ) :
    Decidable (fitsWindow windowWidth windowHeight t) := by
  unfold fitsWindow; infer_instance

/-- How the containers change while one dequeued bar `b` with path `path` is expanded. -/
structure Grows (b : Bar) (path : List Op) (s s' : Search) : Prop where
  vis_mono : ∀ t ∈ s.visited, t ∈ s'.visited
  q_mono : ∀ x ∈ s.q, x ∈ s'.q
  q_new : ∀ x ∈ s'.q, x ∈ s.q ∨
    (x.1.getTuple ∈ s'.visited ∧ ∃ o, x = (b.rotate o, path ++ [o]))
  vis_new : ∀ t ∈ s'.visited, t ∈ s.visited ∨ ∃ x ∈ s'.q, x.1.getTuple = t ∧
    ∃ o, x = (b.rotate o, path ++ [o])
  nodup : s.visited.Nodup → s'.visited.Nodup
  len : s'.q.length + s.visited.length = s.q.length + s'.visited.length

/-- The loop invariant of the search started from `bar`. -/
structure SearchInv (windowWidth windowHeight : ℚ) (bar : Bar) (s : Search) : Prop where
  queued_visited : ∀ x ∈ s.q, x.1.getTuple ∈ s.visited
  queued_path : ∀ x ∈ s.q, x.1 = bar.rotateAll x.2
  visited_perm : ∀ t ∈ s.visited, t ∈ perms6 bar.getTuple
  nodup : s.visited.Nodup
  start_mem : bar.getTuple ∈ s.visited
  settled : ∀ t ∈ s.visited, (∃ x ∈ s.q, x.1.getTuple = t) ∨
    (¬ fitsWindow windowWidth windowHeight t ∧ ∀ o, rotTuple o t ∈ s.visited)

/-- The level structure of the queue: the paths in the queue have length `d` or `d + 1`, in
nondecreasing order, each of them is a shortest rotation sequence to its orientation, and
every orientation that at most `d` rotations reach is in `visited`. -/
structure SearchLevel (bar : Bar) (d : Nat) (s : Search) : Prop where
  lower : ∀ x ∈ s.q, d ≤ x.2.length
  upper : ∀ x ∈ s.q, x.2.length ≤ d + 1
  sorted : s.q.Pairwise (fun x y => x.2.length ≤ y.2.length)
  shortest : ∀ x ∈ s.q, ∀ ops : List Op,
    (bar.rotateAll ops).getTuple = x.1.getTuple → x.2.length ≤ ops.length
  reached : ∀ ops : List Op, ops.length ≤ d → (bar.rotateAll ops).getTuple ∈ s.visited

/-- One pass through the loop body that comes back to the loop condition; `none` when the
loop is left instead, on an empty queue or on success for the dequeued bar. -/
def bfsNext (windowWidth windowHeight : ℚ) : Search → Option Search
  | ⟨[], _⟩ => none
  | ⟨(b, path) :: rest, visited⟩ =>
    if b.w ≤ windowWidth ∧ b.h ≤ windowHeight then none
    else some (expand b path ⟨rest, visited⟩)

/-- The containers at the loop condition after `n` passes through the body, when the loop
gets that far. -/
def bfsStateAt (windowWidth windowHeight : ℚ) (bar : Bar) : Nat → Option Search
  | 0 => some (Search.init bar)
  | n + 1 => (bfsStateAt windowWidth windowHeight bar n).bind (bfsNext windowWidth windowHeight)

/-- The call `canBarEverFit(d1, d2, d3)` as a step on the engine: its result and the engine
after the call. The body reads `windowWidth` and `windowHeight` and assigns no member. -/
def canBarEverFitCall (c : State) (d1 d2 d3 : ℚ) : Bool × State :=
  (canBarEverFit c d1 d2 d3, c)

/-! ## The sorted test, to compare with `canBarEverFit` -/

/-- The smallest of three extents. -/
def smallestExtent (d1 d2 d3 : ℚ) : ℚ := min d1 (min d2 d3)

/-- The second smallest (median) of three extents. -/
def medianExtent (d1 d2 d3 : ℚ) : ℚ := max (min d1 d2) (min (max d1 d2) d3)

/-- The largest of three extents. -/
def largestExtent (d1 d2 d3 : ℚ) : ℚ := max d1 (max d2 d3)

/-- The sorted test: the smallest extent is at most the smaller side of the window and the
median extent is at most the larger side. -/
def sortedFitTest (c : State) (d1 d2 d3 : ℚ) : Bool :=
  decide (smallestExtent d1 d2 d3 ≤ min c.windowWidth c.windowHeight ∧
    medianExtent d1 d2 d3 ≤ max c.windowWidth c.windowHeight)

/-! ## The same code with binary64 rounding -/

/-- Auxiliary for `natLog2`, by halving. -/
def natLog2Aux : Nat → Nat → Nat
  | 0, _ => 0
  | fuel + 1, n => if n < 2 then 0 else natLog2Aux fuel (n / 2) + 1

/-- The position of the leading bit: the largest `e` with `2 ^ e ≤ n` (0 for `n = 0`). -/
def natLog2 (n : Nat) : Nat := natLog2Aux n n

/-- The binary exponent of a nonzero rational: the `e` with `2 ^ e ≤ |x| < 2 ^ (e + 1)`. -/
def binaryExponent (x : ℚ) : ℤ :=
  let e0 : ℤ := (natLog2 x.num.natAbs : ℤ) - (natLog2 x.den : ℤ)
  if (2 : ℚ) ^ e0 * (x.den : ℚ) ≤ (x.num.natAbs : ℚ) then e0 else e0 - 1

/-- Rounding to the nearest integer, a tie going to the even one. -/
def roundHalfEven (x : ℚ) : ℤ :=
  if x - ⌊x⌋ < 1 / 2 then ⌊x⌋
  else if 1 / 2 < x - ⌊x⌋ then ⌊x⌋ + 1
  else if ⌊x⌋ % 2 = 0 then ⌊x⌋ else ⌊x⌋ + 1

/-- The value a `double` takes for the exact result `x` of an operation: IEEE 754 binary64,
round to nearest, ties to even; 53 significant bits, the spacing below `2 ^ (-1022)` being
that of the subnormal numbers. Overflow to infinity is not modelled. -/
def roundDouble (x : ℚ) : ℚ :=
  if x = 0 then 0
  else
    let ulp : ℚ := (2 : ℚ) ^ (max (binaryExponent x) (-1022) - 52)
    (roundHalfEven (x / ulp) : ℚ) * ulp

/-- The product `a * b` of two `double` values. -/
def mulDouble (a b : ℚ) : ℚ := roundDouble (a * b)

/-- The sum `a + b` of two `double` values. -/
def addDouble (a b : ℚ) : ℚ := roundDouble (a + b)

/-- The difference `a - b` of two `double` values. -/
def subDouble (a b : ℚ) : ℚ := roundDouble (a - b)

/-- The constructor `Bar(width, length, height)` with the product `w * l * h` computed in
`double`, left to right. -/
def Bar.newDouble (width length height : ℚ) : Bar :=
  { w := width, l := length, h := height,
    initial_w := width, initial_l := length, initial_h := height,
    volume := mulDouble (mulDouble width length) height }

/-- `processBar` with each arithmetic operation rounded: the product in the constructor,
`0.5 * remainingVolume`, and the three compound assignments. The comparisons and the search
are as in `processBar`. -/
def processBarDouble (fuel : Nat) (c : State) (initial_w initial_l initial_h : ℚ) :
    Option (State × Decision) :=
  let bar := Bar.newDouble initial_w initial_l initial_h
  let barVolume := bar.volume
  if !canBarEverFit c bar.initial_w bar.initial_l bar.initial_h then
    some ({ c with totalDroppedVolume := addDouble c.totalDroppedVolume barVolume },
      Decision.dropNoFit)
  else if barVolume > mulDouble 0.5 c.remainingVolume then
    some ({ c with totalDroppedVolume := addDouble c.totalDroppedVolume barVolume },
      Decision.dropVolume)
  else
    match bfsLoop c.windowWidth c.windowHeight fuel (Search.init bar) with
    | none => none
    | some (some (b, path)) =>
      some ({ c with remainingVolume := subDouble c.remainingVolume barVolume,
                     totalLoadedVolume := addDouble c.totalLoadedVolume barVolume },
            Decision.loaded b path)
    | some none =>
      some ({ c with totalDroppedVolume := addDouble c.totalDroppedVolume barVolume },
            Decision.logicError)

/-- The caller's loop over `processBarDouble`. -/
def processBarsDouble (fuel : Nat) : State → List (ℚ × ℚ × ℚ) → Option State
  | c, [] => some c
  | c, (w, l, h) :: bars =>
    match processBarDouble fuel c w l h with
    | none => none
    | some (c', _) => processBarsDouble fuel c' bars

theorem getTuple_rotate (b : Bar) (o : Op) : (b.rotate o).getTuple = rotTuple o b.getTuple := by
  cases o <;> rfl

theorem rotateAll_append (b : Bar) (path : List Op) (o : Op) :
    b.rotateAll (path ++ [o]) = (b.rotateAll path).rotate o := by
  simp [Bar.rotateAll, List.foldl_append]

theorem rotTuple_mem_perms6 (o : Op) (t u : ℚ × ℚ × ℚ) (h : t ∈ perms6 u) :
    rotTuple o t ∈ perms6 u := by
  obtain ⟨a, b, c⟩ := u
  simp only [perms6, List.mem_cons, List.mem_singleton, List.not_mem_nil, or_false] at h
  rcases h with rfl | rfl | rfl | rfl | rfl | rfl <;> cases o <;> simp [perms6, rotTuple]

theorem self_mem_perms6 (t : ℚ × ℚ × ℚ) : t ∈ perms6 t := by
  obtain ⟨a, b, c⟩ := t
  simp [perms6]

theorem perms6_length (t : ℚ × ℚ × ℚ) : (perms6 t).length = 6 := by
  obtain ⟨a, b, c⟩ := t
  rfl

/-- Every rearrangement is reached from the start by at most two rotations. -/
theorem perms6_closed (t : ℚ × ℚ × ℚ) (vis : List (ℚ × ℚ × ℚ)) (ht : t ∈ vis)
    (hclosed : ∀ u ∈ vis, ∀ o, rotTuple o u ∈ vis) : ∀ u ∈ perms6 t, u ∈ vis := by
  obtain ⟨a, b, c⟩ := t
  have h1 := hclosed _ ht Op.op1
  have h2 := hclosed _ ht Op.op2
  have h3 := hclosed _ ht Op.op3
  have h31 := hclosed _ h3 Op.op1
  have h21 := hclosed _ h2 Op.op1
  intro u hu
  simp only [perms6, List.mem_cons, List.mem_singleton, List.not_mem_nil, or_false] at hu
  rcases hu with rfl | rfl | rfl | rfl | rfl | rfl
  · exact ht
  · exact h1
  · exact h2
  · exact h3
  · exact h31
  · exact h21

theorem canBarEverFit_iff_perm_fits (c : State) (w l h : ℚ) :
    canBarEverFit c w l h = true ↔
      ∃ t ∈ perms6 (w, l, h), fitsWindow c.windowWidth c.windowHeight t := by
  unfold canBarEverFit
  simp only [perms6, fitsWindow, List.mem_cons, List.mem_singleton, List.not_mem_nil, or_false,
    exists_eq_or_imp, exists_eq_left]
  split_ifs <;> simp_all

theorem Grows.refl (b : Bar) (path : List Op) (s : Search) : Grows b path s s where
  vis_mono := fun _ ht => ht
  q_mono := fun _ hx => hx
  q_new := fun _ hx => Or.inl hx
  vis_new := fun _ ht => Or.inl ht
  nodup := fun hn => hn
  len := rfl

theorem Grows.trans {b : Bar} {path : List Op} {s s' s'' : Search}
    (h1 : Grows b path s s') (h2 : Grows b path s' s'') : Grows b path s s'' where
  vis_mono := fun t ht => h2.vis_mono t (h1.vis_mono t ht)
  q_mono := fun x hx => h2.q_mono x (h1.q_mono x hx)
  q_new := by
    intro x hx
    rcases h2.q_new x hx with hx' | hx'
    · rcases h1.q_new x hx' with hx'' | ⟨hv, ho⟩
      · exact Or.inl hx''
      · exact Or.inr ⟨h2.vis_mono _ hv, ho⟩
    · exact Or.inr hx'
  vis_new := by
    intro t ht
    rcases h2.vis_new t ht with ht' | ht'
    · rcases h1.vis_new t ht' with ht'' | ⟨x, hx, hxt, ho⟩
      · exact Or.inl ht''
      · exact Or.inr ⟨x, h2.q_mono x hx, hxt, ho⟩
    · exact Or.inr ht'
  nodup := fun hn => h2.nodup (h1.nodup hn)
  len := by
    have e1 := h1.len
    have e2 := h2.len
    omega

theorem explore_grows (b : Bar) (path : List Op) (o : Op) (s : Search) :
    Grows b path s (explore b path o s) := by
  unfold explore
  by_cases hmem : (b.rotate o).getTuple ∈ s.visited
  · simp only [hmem, not_true_eq_false, if_false]
    exact Grows.refl b path s
  · simp only [hmem, not_false_eq_true, if_true, setInsert, if_false]
    refine ⟨?_, ?_, ?_, ?_, ?_, ?_⟩
    · intro t ht
      exact List.mem_cons_of_mem _ ht
    · intro x hx
      exact List.mem_append_left _ hx
    · intro x hx
      rcases List.mem_append.1 hx with hx' | hx'
      · exact Or.inl hx'
      · rw [List.mem_singleton] at hx'
        subst hx'
        exact Or.inr ⟨List.mem_cons_self _ _, o, rfl⟩
    · intro t ht
      rcases List.mem_cons.1 ht with ht' | ht'
      · subst ht'
        exact Or.inr ⟨(b.rotate o, path ++ [o]),
          List.mem_append_right _ (List.mem_singleton_self _), rfl, o, rfl⟩
      · exact Or.inl ht'
    · intro hn
      exact List.nodup_cons.2 ⟨hmem, hn⟩
    · simp only [List.length_append, List.length_cons, List.length_nil]
      omega

theorem explore_mem (b : Bar) (path : List Op) (o : Op) (s : Search) :
    (b.rotate o).getTuple ∈ (explore b path o s).visited := by
  unfold explore
  by_cases hmem : (b.rotate o).getTuple ∈ s.visited
  · simp [hmem]
  · simp [hmem, setInsert]

theorem expand_grows (b : Bar) (path : List Op) (s : Search) :
    Grows b path s (expand b path s) :=
  ((explore_grows b path Op.op1 s).trans (explore_grows b path Op.op2 _)).trans
    (explore_grows b path Op.op3 _)

theorem expand_mem (b : Bar) (path : List Op) (s : Search) (o : Op) :
    (b.rotate o).getTuple ∈ (expand b path s).visited := by
  unfold expand
  cases o
  · exact (explore_grows b path Op.op3 _).vis_mono _
      ((explore_grows b path Op.op2 _).vis_mono _ (explore_mem b path Op.op1 s))
  · exact (explore_grows b path Op.op3 _).vis_mono _ (explore_mem b path Op.op2 _)
  · exact explore_mem b path Op.op3 _

theorem SearchInv.init (windowWidth windowHeight : ℚ) (bar : Bar) :
    SearchInv windowWidth windowHeight bar (Search.init bar) := by
  refine ⟨?_, ?_, ?_, ?_, ?_, ?_⟩ <;> simp [Search.init, setInsert, Bar.rotateAll]
  exact self_mem_perms6 _

theorem SearchInv.visited_length_le {windowWidth windowHeight : ℚ} {bar : Bar} {s : Search}
    (hinv : SearchInv windowWidth windowHeight bar s) : s.visited.length ≤ 6 := by
  have hsub : s.visited ⊆ perms6 bar.getTuple := fun t ht => hinv.visited_perm t ht
  have := (List.subperm_of_subset hinv.nodup hsub).length_le
  rwa [perms6_length] at this

/-- The invariant survives one pass through the loop body on a bar that fails the success
test. -/
theorem SearchInv.step {windowWidth windowHeight : ℚ} {bar b : Bar} {path : List Op}
    {rest : List (Bar × List Op)} {visited : List (ℚ × ℚ × ℚ)}
    (hinv : SearchInv windowWidth windowHeight bar ⟨(b, path) :: rest, visited⟩)
    (hfail : ¬ (b.w ≤ windowWidth ∧ b.h ≤ windowHeight)) :
    SearchInv windowWidth windowHeight bar (expand b path ⟨rest, visited⟩) := by
  have hg := expand_grows b path ⟨rest, visited⟩
  have hbvis : b.getTuple ∈ visited := hinv.queued_visited (b, path) (List.mem_cons_self _ _)
  have hbpath : b = bar.rotateAll path := hinv.queued_path (b, path) (List.mem_cons_self _ _)
  refine ⟨?_, ?_, ?_, ?_, ?_, ?_⟩
  · intro x hx
    rcases hg.q_new x hx with hx' | ⟨hv, _⟩
    · exact hg.vis_mono _ (hinv.queued_visited x (List.mem_cons_of_mem _ hx'))
    · exact hv
  · intro x hx
    rcases hg.q_new x hx with hx' | ⟨_, o, rfl⟩
    · exact hinv.queued_path x (List.mem_cons_of_mem _ hx')
    · show b.rotate o = bar.rotateAll (path ++ [o])
      rw [rotateAll_append, ← hbpath]
  · intro t ht
    rcases hg.vis_new t ht with ht' | ⟨x, _, hxt, o, rfl⟩
    · exact hinv.visited_perm t ht'
    · rw [← hxt]
      show (b.rotate o).getTuple ∈ perms6 bar.getTuple
      rw [getTuple_rotate]
      exact rotTuple_mem_perms6 o _ _ (hinv.visited_perm _ hbvis)
  · exact hg.nodup hinv.nodup
  · exact hg.vis_mono _ hinv.start_mem
  · intro t ht
    rcases hg.vis_new t ht with ht' | ⟨x, hx, hxt, _⟩
    · rcases hinv.settled t ht' with ⟨x, hx, hxt⟩ | ⟨hnf, hcl⟩
      · rcases List.mem_cons.1 hx with hx' | hx'
        · subst hx'
          refine Or.inr ⟨?_, ?_⟩
          · rw [← hxt]
            exact hfail
          · intro o
            rw [← hxt]
            show rotTuple o b.getTuple ∈ _
            rw [← getTuple_rotate]
            exact expand_mem b path _ o
        · exact Or.inl ⟨x, hg.q_mono x hx', hxt⟩
      · exact Or.inr ⟨hnf, fun o => hg.vis_mono _ (hcl o)⟩
    · exact Or.inl ⟨x, hx, hxt⟩

/-- With the invariant and enough fuel the loop ends: either on a dequeued bar that passes
the success test, or with an empty queue when no rearrangement of the start passes it. -/
theorem bfsLoop_spec (windowWidth windowHeight : ℚ) (bar : Bar) :
    ∀ (fuel : Nat) (s : Search), SearchInv windowWidth windowHeight bar s →
      s.q.length + 6 < fuel + s.visited.length →
      ∃ r, bfsLoop windowWidth windowHeight fuel s = some r ∧
        (r = none → ∀ t ∈ perms6 bar.getTuple, ¬ fitsWindow windowWidth windowHeight t) ∧
        (∀ b path, r = some (b, path) →
          (b.w ≤ windowWidth ∧ b.h ≤ windowHeight) ∧ b = bar.rotateAll path ∧
            b.getTuple ∈ perms6 bar.getTuple) := by
  intro fuel
  induction fuel with
  | zero =>
    intro s hinv hlt
    have := hinv.visited_length_le
    omega
  | succ n ih =>
    intro s hinv hlt
    obtain ⟨q, visited⟩ := s
    cases q with
    | nil =>
      refine ⟨none, rfl, ?_, ?_⟩
      · intro _ t ht hfit
        have hclosed : ∀ u ∈ visited, ∀ o, rotTuple o u ∈ visited := by
          intro u hu o
          rcases hinv.settled u hu with ⟨x, hx, _⟩ | ⟨_, hcl⟩
          · exact absurd hx (List.not_mem_nil _)
          · exact hcl o
        have htv := perms6_closed _ visited hinv.start_mem hclosed t ht
        rcases hinv.settled t htv with ⟨x, hx, _⟩ | ⟨hnf, _⟩
        · exact absurd hx (List.not_mem_nil _)
        · exact hnf hfit
      · intro b path hr
        cases hr
    | cons x rest =>
      obtain ⟨b, path⟩ := x
      by_cases hgoal : b.w ≤ windowWidth ∧ b.h ≤ windowHeight
      · refine ⟨some (b, path), ?_, ?_, ?_⟩
        · simp [bfsLoop, hgoal]
        · intro hr
          cases hr
        · intro b' path' hr
          simp only [Option.some.injEq, Prod.mk.injEq] at hr
          obtain ⟨rfl, rfl⟩ := hr
          exact ⟨hgoal, hinv.queued_path (b, path) (List.mem_cons_self _ _),
            hinv.visited_perm _ (hinv.queued_visited (b, path) (List.mem_cons_self _ _))⟩
      · have hinv' := hinv.step hgoal
        have hlen := (expand_grows b path ⟨rest, visited⟩).len
        simp only [List.length_cons] at hlt hlen
        have hlt' : (expand b path ⟨rest, visited⟩).q.length + 6
            < n + (expand b path ⟨rest, visited⟩).visited.length := by
          omega
        obtain ⟨r, hr, h1, h2⟩ := ih _ hinv' hlt'
        refine ⟨r, ?_, h1, h2⟩
        rw [← hr]
        simp [bfsLoop, hgoal]

/-- From the start containers seven evaluations of the loop condition are enough. -/
theorem bfsLoop_init (windowWidth windowHeight : ℚ) (bar : Bar) (fuel : Nat)
    (hfuel : 7 ≤ fuel) :
    ∃ r, bfsLoop windowWidth windowHeight fuel (Search.init bar) = some r ∧
      (r = none → ∀ t ∈ perms6 bar.getTuple, ¬ fitsWindow windowWidth windowHeight t) ∧
      (∀ b path, r = some (b, path) →
        (b.w ≤ windowWidth ∧ b.h ≤ windowHeight) ∧ b = bar.rotateAll path ∧
          b.getTuple ∈ perms6 bar.getTuple) := by
  apply bfsLoop_spec windowWidth windowHeight bar fuel _ (SearchInv.init _ _ bar)
  simp only [Search.init, setInsert, List.not_mem_nil, if_false, List.length_cons,
    List.length_nil]
  omega

/-! ## Levels of the search: the queue holds shortest paths -/

theorem rotateAll_getTuple_mem_perms6 (u : ℚ × ℚ × ℚ) :
    ∀ (ops : List Op) (b : Bar), b.getTuple ∈ perms6 u →
      (b.rotateAll ops).getTuple ∈ perms6 u := by
  intro ops
  induction ops with
  | nil => intro b hb; exact hb
  | cons o os ih =>
    intro b hb
    have hstep : (b.rotate o).getTuple ∈ perms6 u := by
      rw [getTuple_rotate]
      exact rotTuple_mem_perms6 o _ _ hb
    exact ih (b.rotate o) hstep

/-- Every rearrangement of the start is the orientation after at most two rotations. -/
theorem perms6_reach (bar : Bar) (t : ℚ × ℚ × ℚ) (ht : t ∈ perms6 bar.getTuple) :
    ∃ ops : List Op, ops.length ≤ 2 ∧ (bar.rotateAll ops).getTuple = t := by
  simp only [Bar.getTuple, perms6, List.mem_cons, List.mem_singleton, List.not_mem_nil,
    or_false] at ht
  rcases ht with rfl | rfl | rfl | rfl | rfl | rfl
  · exact ⟨[], by decide, rfl⟩
  · exact ⟨[Op.op1], by decide, rfl⟩
  · exact ⟨[Op.op2], by decide, rfl⟩
  · exact ⟨[Op.op3], by decide, rfl⟩
  · exact ⟨[Op.op3, Op.op1], by decide, rfl⟩
  · exact ⟨[Op.op2, Op.op1], by decide, rfl⟩

theorem SearchLevel.at_start (bar : Bar) : SearchLevel bar 0 (Search.init bar) := by
  refine ⟨?_, ?_, ?_, ?_, ?_⟩
  · intro x _
    exact Nat.zero_le _
  · intro x hx
    simp only [Search.init, List.mem_singleton] at hx
    subst hx
    exact Nat.zero_le _
  · simp [Search.init]
  · intro x hx ops _
    simp only [Search.init, List.mem_singleton] at hx
    subst hx
    exact Nat.zero_le _
  · intro ops hops
    have hnil : ops = [] := List.length_eq_zero.1 (Nat.le_zero.1 hops)
    subst hnil
    simp [Search.init, setInsert, Bar.rotateAll]

theorem SearchLevel.tail {bar : Bar} {d : Nat} {x : Bar × List Op}
    {rest : List (Bar × List Op)} {visited : List (ℚ × ℚ × ℚ)}
    (hlev : SearchLevel bar d ⟨x :: rest, visited⟩) : SearchLevel bar d ⟨rest, visited⟩ where
  lower := fun y hy => hlev.lower y (List.mem_cons_of_mem _ hy)
  upper := fun y hy => hlev.upper y (List.mem_cons_of_mem _ hy)
  sorted := (List.pairwise_cons.1 hlev.sorted).2
  shortest := fun y hy => hlev.shortest y (List.mem_cons_of_mem _ hy)
  reached := hlev.reached

theorem SearchLevel.after_explore {bar : Bar} {d : Nat} {s : Search} (b : Bar)
    (path : List Op) (o : Op) (hlev : SearchLevel bar d s) (hlen : path.length = d) :
    SearchLevel bar d (Conveyor.explore b path o s) := by
  unfold Conveyor.explore
  by_cases hmem : (b.rotate o).getTuple ∈ s.visited
  · simp only [hmem, not_true_eq_false, if_false]
    exact hlev
  · simp only [hmem, not_false_eq_true, if_true, setInsert, if_false]
    refine ⟨?_, ?_, ?_, ?_, ?_⟩
    · intro x hx
      rcases List.mem_append.1 hx with hx' | hx'
      · exact hlev.lower x hx'
      · rw [List.mem_singleton] at hx'
        subst hx'
        simp only [List.length_append, List.length_cons, List.length_nil]
        omega
    · intro x hx
      rcases List.mem_append.1 hx with hx' | hx'
      · exact hlev.upper x hx'
      · rw [List.mem_singleton] at hx'
        subst hx'
        simp only [List.length_append, List.length_cons, List.length_nil]
        omega
    · refine List.pairwise_append.2 ⟨hlev.sorted, List.pairwise_singleton _ _, ?_⟩
      intro x hx y hy
      rw [List.mem_singleton] at hy
      subst hy
      have := hlev.upper x hx
      simp only [List.length_append, List.length_cons, List.length_nil]
      omega
    · intro x hx ops hops
      rcases List.mem_append.1 hx with hx' | hx'
      · exact hlev.shortest x hx' ops hops
      · rw [List.mem_singleton] at hx'
        subst hx'
        by_contra hlt
        simp only [List.length_append, List.length_cons, List.length_nil, not_le] at hlt
        have hvis := hlev.reached ops (by omega)
        rw [hops] at hvis
        exact hmem hvis
    · intro ops hops
      exact List.mem_cons_of_mem _ (hlev.reached ops hops)

theorem SearchLevel.after_expand {bar : Bar} {d : Nat} {s : Search} (b : Bar)
    (path : List Op) (hlev : SearchLevel bar d s) (hlen : path.length = d) :
    SearchLevel bar d (Conveyor.expand b path s) := by
  unfold Conveyor.expand
  exact ((hlev.after_explore b path Op.op1 hlen).after_explore b path Op.op2 hlen).after_explore
    b path Op.op3 hlen

/-- When every queued path is longer than `d`, the level moves on to `d + 1`. -/
theorem SearchLevel.advance {windowWidth windowHeight : ℚ} {bar : Bar} {d : Nat}
    {s : Search} (hinv : SearchInv windowWidth windowHeight bar s)
    (hlev : SearchLevel bar d s) (hall : ∀ x ∈ s.q, d + 1 ≤ x.2.length) :
    SearchLevel bar (d + 1) s := by
  refine ⟨hall, ?_, hlev.sorted, hlev.shortest, ?_⟩
  · intro x hx
    have := hlev.upper x hx
    omega
  · intro ops hops
    rcases Nat.lt_or_ge ops.length (d + 1) with hlt | hge
    · exact hlev.reached ops (by omega)
    · rcases List.eq_nil_or_concat ops with hnil | ⟨ops', o, hcat⟩
      · subst hnil
        simp at hge
      · rw [List.concat_eq_append] at hcat
        subst hcat
        simp only [List.length_append, List.length_cons, List.length_nil] at hops hge
        have hprev := hlev.reached ops' (by omega)
        rw [rotateAll_append, getTuple_rotate]
        rcases hinv.settled _ hprev with ⟨y, hy, hyt⟩ | ⟨_, hcl⟩
        · have h1 := hlev.shortest y hy ops' hyt.symm
          have h2 := hall y hy
          omega
        · exact hcl o

/-- The level can be taken to be the length of the path at the head of the queue. -/
theorem SearchLevel.at_head {windowWidth windowHeight : ℚ} {bar b : Bar} {d : Nat}
    {path : List Op} {rest : List (Bar × List Op)} {visited : List (ℚ × ℚ × ℚ)}
    (hinv : SearchInv windowWidth windowHeight bar ⟨(b, path) :: rest, visited⟩)
    (hlev : SearchLevel bar d ⟨(b, path) :: rest, visited⟩) :
    SearchLevel bar path.length ⟨(b, path) :: rest, visited⟩ := by
  have hlo := hlev.lower (b, path) (List.mem_cons_self _ _)
  have hup := hlev.upper (b, path) (List.mem_cons_self _ _)
  rcases Nat.eq_or_lt_of_le hlo with heq | hlt
  · have e : path.length = d := heq.symm
    rw [e]
    exact hlev
  · have e : path.length = d + 1 := by
      simp only at hup hlt
      omega
    rw [e]
    apply hlev.advance hinv
    intro x hx
    rcases List.mem_cons.1 hx with hx' | hx'
    · subst hx'
      exact le_of_eq e.symm
    · have := (List.pairwise_cons.1 hlev.sorted).1 x hx'
      simp only at this
      omega

/-- What the loop returns from inside, for any fuel: a bar that passes the success test, the
start rotated along the returned path, and no shorter sequence of rotations passes the
test; the path has at most two rotations. -/
theorem bfsLoop_result (windowWidth windowHeight : ℚ) (bar : Bar) :
    ∀ (fuel : Nat) (s : Search) (d : Nat), SearchInv windowWidth windowHeight bar s →
      SearchLevel bar d s → ∀ (b : Bar) (path : List Op),
      bfsLoop windowWidth windowHeight fuel s = some (some (b, path)) →
      (b.w ≤ windowWidth ∧ b.h ≤ windowHeight) ∧ b = bar.rotateAll path ∧
        b.getTuple ∈ perms6 bar.getTuple ∧
        (∀ ops : List Op, ops.length < path.length →
          ¬ fitsWindow windowWidth windowHeight (bar.rotateAll ops).getTuple) ∧
        path.length ≤ 2 := by
  intro fuel
  induction fuel with
  | zero =>
    intro s d _ _ b path hr
    simp [bfsLoop] at hr
  | succ n ih =>
    intro s d hinv hlev b path hr
    obtain ⟨q, visited⟩ := s
    cases q with
    | nil => simp [bfsLoop] at hr
    | cons x rest =>
      obtain ⟨b0, p0⟩ := x
      have hlev0 := hlev.at_head hinv
      by_cases hgoal : b0.w ≤ windowWidth ∧ b0.h ≤ windowHeight
      · simp only [bfsLoop, hgoal, and_self, if_true, Option.some.injEq, Prod.mk.injEq] at hr
        obtain ⟨rfl, rfl⟩ := hr
        have hmem : (b0, p0) ∈ (b0, p0) :: rest := List.mem_cons_self _ _
        have hperm := hinv.visited_perm _ (hinv.queued_visited (b0, p0) hmem)
        refine ⟨hgoal, hinv.queued_path (b0, p0) hmem, hperm, ?_, ?_⟩
        · intro ops hops hfit
          have hvis := hlev0.reached ops (le_of_lt hops)
          rcases hinv.settled _ hvis with ⟨y, hy, hyt⟩ | ⟨hnf, _⟩
          · have h1 := hlev0.shortest y hy ops hyt.symm
            have h2 := hlev0.lower y hy
            omega
          · exact hnf hfit
        · obtain ⟨ops, hops, htup⟩ := perms6_reach bar _ hperm
          have := hlev0.shortest (b0, p0) hmem ops htup
          simp only at this
          omega
      · have hinv' := hinv.step hgoal
        have hlev' := hlev0.tail.after_expand b0 p0 rfl
        have hr' : bfsLoop windowWidth windowHeight n (expand b0 p0 ⟨rest, visited⟩)
            = some (some (b, path)) := by
          rw [← hr]
          simp [bfsLoop, hgoal]
        exact ih _ _ hinv' hlev' b path hr'

/-- The result of the search from the start containers, for any fuel. -/
theorem bfsLoop_init_result (windowWidth windowHeight : ℚ) (bar : Bar) (fuel : Nat) (b : Bar)
    (path : List Op)
    (hr : bfsLoop windowWidth windowHeight fuel (Search.init bar) = some (some (b, path))) :
    (b.w ≤ windowWidth ∧ b.h ≤ windowHeight) ∧ b = bar.rotateAll path ∧
      b.getTuple ∈ perms6 bar.getTuple ∧
      (∀ ops : List Op, ops.length < path.length →
        ¬ fitsWindow windowWidth windowHeight (bar.rotateAll ops).getTuple) ∧
      path.length ≤ 2 :=
  bfsLoop_result windowWidth windowHeight bar fuel _ 0 (SearchInv.init _ _ bar)
    (SearchLevel.at_start bar) b path hr

/-- A pass of the body that comes back to the loop condition uses one unit of fuel. -/
theorem bfsLoop_of_next (windowWidth windowHeight : ℚ) (s s' : Search) (fuel : Nat)
    (hnext : bfsNext windowWidth windowHeight s = some s') :
    bfsLoop windowWidth windowHeight (fuel + 1) s = bfsLoop windowWidth windowHeight fuel s' := by
  obtain ⟨q, visited⟩ := s
  cases q with
  | nil => simp [bfsNext] at hnext
  | cons x rest =>
    obtain ⟨b, path⟩ := x
    by_cases hgoal : b.w ≤ windowWidth ∧ b.h ≤ windowHeight
    · simp [bfsNext, hgoal] at hnext
    · simp only [bfsNext, hgoal, if_false, Option.some.injEq] at hnext
      subst hnext
      simp [bfsLoop, hgoal]

/-- The containers at the loop condition satisfy the invariant, and the number of passes made
is the number of orientations in `visited` that are no longer queued. -/
theorem bfsStateAt_inv (windowWidth windowHeight : ℚ) (bar : Bar) :
    ∀ (n : Nat) (s : Search), bfsStateAt windowWidth windowHeight bar n = some s →
      SearchInv windowWidth windowHeight bar s ∧ s.q.length + n = s.visited.length := by
  intro n
  induction n with
  | zero =>
    intro s hs
    simp only [bfsStateAt, Option.some.injEq] at hs
    subst hs
    exact ⟨SearchInv.init _ _ bar, by simp [Search.init, setInsert]⟩
  | succ k ih =>
    intro s hs
    simp only [bfsStateAt, Option.bind_eq_some] at hs
    obtain ⟨s0, hs0, hnext⟩ := hs
    obtain ⟨hinv, hlen⟩ := ih s0 hs0
    obtain ⟨q, visited⟩ := s0
    cases q with
    | nil => simp [bfsNext] at hnext
    | cons x rest =>
      obtain ⟨b, path⟩ := x
      by_cases hgoal : b.w ≤ windowWidth ∧ b.h ≤ windowHeight
      · simp [bfsNext, hgoal] at hnext
      · simp only [bfsNext, hgoal, if_false, Option.some.injEq] at hnext
        subst hnext
        refine ⟨hinv.step hgoal, ?_⟩
        have hg := (expand_grows b path ⟨rest, visited⟩).len
        simp only [List.length_cons] at hlen hg
        omega

theorem perm_of_mem_perms6 (t u : ℚ × ℚ × ℚ) (h : t ∈ perms6 u) :
    List.Perm [t.1, t.2.1, t.2.2] [u.1, u.2.1, u.2.2] := by
  obtain ⟨a, b, c⟩ := u
  simp only [perms6, List.mem_cons, List.mem_singleton, List.not_mem_nil, or_false] at h
  rcases h with rfl | rfl | rfl | rfl | rfl | rfl
  · exact List.Perm.refl _
  · exact List.Perm.cons a (List.Perm.swap b c [])
  · exact (List.Perm.swap b c [a]).trans
      ((List.Perm.cons b (List.Perm.swap a c [])).trans (List.Perm.swap a b [c]))
  · exact List.Perm.swap a b [c]
  · exact (List.Perm.cons b (List.Perm.swap a c [])).trans (List.Perm.swap a b [c])
  · exact (List.Perm.swap a c [b]).trans (List.Perm.cons a (List.Perm.swap b c []))

/-! ## Lemmas on `processBar` -/

theorem processBar_of_not_fit (fuel : Nat) (c : State) (w l h : ℚ)
    (hfit : canBarEverFit c w l h = false) :
    processBar fuel c w l h =
      some ({ c with totalDroppedVolume := c.totalDroppedVolume + w * l * h },
        Decision.dropNoFit) := by
  simp [processBar, Bar.new, hfit]

theorem processBar_of_too_big (fuel : Nat) (c : State) (w l h : ℚ)
    (hfit : canBarEverFit c w l h = true) (hvol : w * l * h > 0.5 * c.remainingVolume) :
    processBar fuel c w l h =
      some ({ c with totalDroppedVolume := c.totalDroppedVolume + w * l * h },
        Decision.dropVolume) := by
  simp only [processBar, Bar.new, hfit, Bool.not_true, Bool.false_eq_true, if_false]
  rw [if_pos hvol]

theorem processBar_of_admitted (fuel : Nat) (hfuel : 7 ≤ fuel) (c : State) (w l h : ℚ)
    (hfit : canBarEverFit c w l h = true) (hvol : ¬ w * l * h > 0.5 * c.remainingVolume) :
    ∃ b path, processBar fuel c w l h =
      some ({ c with remainingVolume := c.remainingVolume - w * l * h,
                     totalLoadedVolume := c.totalLoadedVolume + w * l * h },
        Decision.loaded b path) ∧
      bfsLoop c.windowWidth c.windowHeight fuel (Search.init (Bar.new w l h))
        = some (some (b, path)) ∧
      (b.w ≤ c.windowWidth ∧ b.h ≤ c.windowHeight) ∧ b = (Bar.new w l h).rotateAll path ∧
      b.getTuple ∈ perms6 (w, l, h) := by
  obtain ⟨r, hr, hnone, hsome⟩ :=
    bfsLoop_init c.windowWidth c.windowHeight (Bar.new w l h) fuel hfuel
  cases r with
  | none =>
    obtain ⟨t, ht, hgoal⟩ := (canBarEverFit_iff_perm_fits c w l h).1 hfit
    exact absurd hgoal (hnone rfl t ht)
  | some x =>
    obtain ⟨b, path⟩ := x
    refine ⟨b, path, ?_, hr, hsome b path rfl⟩
    simp only [processBar, Bar.new, hfit, Bool.not_true, Bool.false_eq_true, if_false]
    rw [if_neg hvol]
    have hr' := hr
    simp only [Bar.new] at hr'
    rw [hr']

/-- One call, seen from the counters: the volume goes to exactly one of the two totals, and
the constants stay. -/
theorem processBar_effect (fuel : Nat) (hfuel : 7 ≤ fuel) (c : State) (w l h : ℚ) :
    ∃ c' d, processBar fuel c w l h = some (c', d) ∧
      c'.holdVolume = c.holdVolume ∧ c'.windowWidth = c.windowWidth ∧
      c'.windowHeight = c.windowHeight ∧ c'.quietMode = c.quietMode ∧
      d ≠ Decision.logicError ∧
      (((∃ b path, d = Decision.loaded b path) ∧
          c'.remainingVolume = c.remainingVolume - w * l * h ∧
          c'.totalLoadedVolume = c.totalLoadedVolume + w * l * h ∧
          c'.totalDroppedVolume = c.totalDroppedVolume) ∨
       ((d = Decision.dropNoFit ∨ d = Decision.dropVolume) ∧
          c'.remainingVolume = c.remainingVolume ∧
          c'.totalLoadedVolume = c.totalLoadedVolume ∧
          c'.totalDroppedVolume = c.totalDroppedVolume + w * l * h)) := by
  cases hfit : canBarEverFit c w l h with
  | false =>
    exact ⟨_, _, processBar_of_not_fit fuel c w l h hfit, rfl, rfl, rfl, rfl,
      by simp, Or.inr ⟨Or.inl rfl, rfl, rfl, rfl⟩⟩
  | true =>
    by_cases hvol : w * l * h > 0.5 * c.remainingVolume
    · exact ⟨_, _, processBar_of_too_big fuel c w l h hfit hvol, rfl, rfl, rfl, rfl,
        by simp, Or.inr ⟨Or.inr rfl, rfl, rfl, rfl⟩⟩
    · obtain ⟨b, path, hp, _⟩ := processBar_of_admitted fuel hfuel c w l h hfit hvol
      exact ⟨_, _, hp, rfl, rfl, rfl, rfl, by simp, Or.inl ⟨⟨b, path, rfl⟩, rfl, rfl, rfl⟩⟩

/-- A run over a list of bars, seen from the counters. -/
theorem processBars_effect (fuel : Nat) (hfuel : 7 ≤ fuel) (bars : List (ℚ × ℚ × ℚ)) :
    ∀ c : State, ∃ c', processBars fuel c bars = some c' ∧
      c'.holdVolume = c.holdVolume ∧
      c'.totalLoadedVolume + c'.totalDroppedVolume
        = c.totalLoadedVolume + c.totalDroppedVolume + totalVolume bars ∧
      c'.remainingVolume + c'.totalLoadedVolume
        = c.remainingVolume + c.totalLoadedVolume := by
  induction bars with
  | nil =>
    intro c
    exact ⟨c, rfl, rfl, by simp [totalVolume], rfl⟩
  | cons x xs ih =>
    intro c
    obtain ⟨w, l, h⟩ := x
    obtain ⟨c1, d, hp, hh, _, _, _, _, hcase⟩ := processBar_effect fuel hfuel c w l h
    obtain ⟨c2, hps, hh2, hsum, hrem⟩ := ih c1
    refine ⟨c2, ?_, hh2.trans hh, ?_, ?_⟩
    · simp only [processBars, hp]
      exact hps
    · simp only [totalVolume, List.map_cons, List.sum_cons] at hsum ⊢
      rcases hcase with ⟨_, _, h2, h3⟩ | ⟨_, _, h2, h3⟩ <;> rw [hsum, h2, h3] <;> ring
    · rcases hcase with ⟨_, h1, h2, _⟩ | ⟨_, h1, h2, _⟩
      · rw [hrem, h1, h2]; ring
      · rw [hrem, h1, h2]

/-- What a loaded decision tells about the call, for any fuel. -/
theorem processBar_loaded_inv (fuel : Nat) (c c' : State) (w l h : ℚ) (b : Bar)
    (path : List Op) (hp : processBar fuel c w l h = some (c', Decision.loaded b path)) :
    canBarEverFit c w l h = true ∧ w * l * h ≤ 0.5 * c.remainingVolume ∧
      c' = { c with remainingVolume := c.remainingVolume - w * l * h,
                    totalLoadedVolume := c.totalLoadedVolume + w * l * h } ∧
      bfsLoop c.windowWidth c.windowHeight fuel (Search.init (Bar.new w l h))
        = some (some (b, path)) := by
  cases hfit : canBarEverFit c w l h with
  | false =>
    rw [processBar_of_not_fit fuel c w l h hfit] at hp
    simp at hp
  | true =>
    by_cases hvol : w * l * h > 0.5 * c.remainingVolume
    · rw [processBar_of_too_big fuel c w l h hfit hvol] at hp
      simp at hp
    · simp only [processBar, Bar.new, hfit, Bool.not_true, Bool.false_eq_true, if_false] at hp
      rw [if_neg hvol] at hp
      have hloop : ∀ r, bfsLoop c.windowWidth c.windowHeight fuel (Search.init (Bar.new w l h))
          = r → r = some (some (b, path)) ∧
            c' = { c with remainingVolume := c.remainingVolume - w * l * h,
                          totalLoadedVolume := c.totalLoadedVolume + w * l * h } := by
        intro r hr
        simp only [Bar.new] at hr
        rw [hr] at hp
        rcases r with _ | _ | ⟨b', path'⟩
        · simp at hp
        · simp at hp
        · simp only [Option.some.injEq, Prod.mk.injEq, Decision.loaded.injEq] at hp
          obtain ⟨hc, hb, hpath⟩ := hp
          subst hb hpath
          exact ⟨rfl, hc.symm⟩
      obtain ⟨hr, hc⟩ := hloop _ rfl
      exact ⟨rfl, not_lt.1 hvol, hc, hr⟩

theorem volume_of_mem_perms6 (t u : ℚ × ℚ × ℚ) (h : t ∈ perms6 u) :
    t.1 * t.2.1 * t.2.2 = u.1 * u.2.1 * u.2.2 := by
  obtain ⟨a, b, c⟩ := u
  simp only [perms6, List.mem_cons, List.mem_singleton, List.not_mem_nil, or_false] at h
  rcases h with rfl | rfl | rfl | rfl | rfl | rfl <;> ring

theorem mem_perms6_trans (t u v : ℚ × ℚ × ℚ) (h1 : t ∈ perms6 u) (h2 : v ∈ perms6 t) :
    v ∈ perms6 u := by
  obtain ⟨a, b, c⟩ := u
  simp only [perms6, List.mem_cons, List.mem_singleton, List.not_mem_nil, or_false] at h1
  rcases h1 with rfl | rfl | rfl | rfl | rfl | rfl <;>
    · simp only [perms6, List.mem_cons, List.mem_singleton, List.not_mem_nil, or_false] at h2 ⊢
      tauto

theorem mem_perms6_symm (t u : ℚ × ℚ × ℚ) (h : t ∈ perms6 u) : u ∈ perms6 t := by
  obtain ⟨a, b, c⟩ := u
  simp only [perms6, List.mem_cons, List.mem_singleton, List.not_mem_nil, or_false] at h
  rcases h with rfl | rfl | rfl | rfl | rfl | rfl <;> simp [perms6]

theorem canBarEverFit_of_mem_perms6 (c : State) (t : ℚ × ℚ × ℚ) (d1 d2 d3 : ℚ)
    (h : t ∈ perms6 (d1, d2, d3)) :
    canBarEverFit c t.1 t.2.1 t.2.2 = canBarEverFit c d1 d2 d3 := by
  rw [Bool.eq_iff_iff, canBarEverFit_iff_perm_fits, canBarEverFit_iff_perm_fits]
  constructor
  · rintro ⟨v, hv, hfit⟩
    exact ⟨v, mem_perms6_trans t _ v h hv, hfit⟩
  · rintro ⟨v, hv, hfit⟩
    exact ⟨v, mem_perms6_trans _ t v (mem_perms6_symm t _ h) hv, hfit⟩

/-! ## The unit tests of `main` -/

/-- Test 1 of `main`: the three rotations on `Bar(2, 3, 4)`. -/
theorem test1_rotations :
    (Bar.new 2 3 4).volume = 24 ∧
    (Bar.new 2 3 4).op1_TopToFront.getTuple = (2, 4, 3) ∧
    (Bar.new 2 3 4).op1_TopToFront.op2_TopToSide.getTuple = (3, 4, 2) ∧
    (Bar.new 2 3 4).op1_TopToFront.op2_TopToSide.op3_FrontToSide.getTuple = (4, 3, 2) ∧
    (Bar.new 2 3 4).op1_TopToFront.op2_TopToSide.op3_FrontToSide.volume = 24 := by
  norm_num [Bar.new, Bar.op1_TopToFront, Bar.op2_TopToSide, Bar.op3_FrontToSide, Bar.getTuple]

/-- Test 2 of `main`: `canBarEverFit` with window 10 x 5. -/
theorem test2_canBarEverFit :
    canBarEverFit (State.new 1000 10 5 true) 3 4 6 = true ∧
    canBarEverFit (State.new 1000 10 5 true) 11 4 3 = true ∧
    canBarEverFit (State.new 1000 10 5 true) 3 6 11 = true ∧
    canBarEverFit (State.new 1000 10 5 true) 11 6 7 = false := by
  norm_num [canBarEverFit, State.new]

/-- Test 3 of `main`: the four bars in order, window 10 x 10, hold 1000. -/
theorem test3_load_drop :
    processBars 7 (State.new 1000 10 10 true) [(5, 5, 5)]
      = some ⟨1000, 875, 10, 10, 125, 0, true⟩ ∧
    processBars 7 (State.new 1000 10 10 true) [(5, 5, 5), (20, 5, 5)]
      = some ⟨1000, 875, 10, 10, 125, 500, true⟩ ∧
    processBars 7 (State.new 1000 10 10 true) [(5, 5, 5), (20, 5, 5), (11, 11, 11)]
      = some ⟨1000, 875, 10, 10, 125, 1831, true⟩ ∧
    processBars 7 (State.new 1000 10 10 true) [(5, 5, 5), (20, 5, 5), (11, 11, 11), (5, 5, 5)]
      = some ⟨1000, 750, 10, 10, 250, 1831, true⟩ := by
  norm_num [processBars, processBar, State.new, Bar.new, canBarEverFit, bfsLoop, Search.init,
    setInsert]

/-- A search that needs two rotations: window 10 x 5, bar (3, 6, 11). -/
theorem test_search_two_steps :
    bfsLoop 10 5 7 (Search.init (Bar.new 3 6 11))
      = some (some (⟨6, 11, 3, 3, 6, 11, 198⟩, [Op.op1, Op.op2])) := by
  norm_num [Bar.new, bfsLoop, Search.init, setInsert, expand, explore, Bar.rotate,
    Bar.getTuple, Bar.op1_TopToFront, Bar.op2_TopToSide, Bar.op3_FrontToSide]

/-! ## Feasibility test -/

/-- C1: `canBarEverFit` is true exactly when two distinct positions of the three extents
fit as (width, height), that is when one of the six ordered pairs fits; with window
(10, 5) it is true on (3,4,6), (11,4,3), (3,6,11) and false on (11,6,7). -/
theorem canBarEverFit_iff_pair_fits :
    (∀ (c : State) (d1 d2 d3 : ℚ),
      canBarEverFit c d1 d2 d3 = true ↔
        ∃ i j : Fin 3, i ≠ j ∧ ![d1, d2, d3] i ≤ c.windowWidth ∧
          ![d1, d2, d3] j ≤ c.windowHeight) ∧
    canBarEverFit (State.new 1000 10 5 true) 3 4 6 = true ∧
    canBarEverFit (State.new 1000 10 5 true) 11 4 3 = true ∧
    canBarEverFit (State.new 1000 10 5 true) 3 6 11 = true ∧
    canBarEverFit (State.new 1000 10 5 true) 11 6 7 = false := by
  refine ⟨?_, by norm_num [canBarEverFit, State.new]⟩
  intro c d1 d2 d3
  constructor
  · intro hfit
    unfold canBarEverFit at hfit
    simp only [] at hfit
    split_ifs at hfit with h1 h2 h3 h4 h5 h6
    · exact ⟨0, 1, by decide, h1.1, h1.2⟩
    · exact ⟨0, 2, by decide, h2.1, h2.2⟩
    · exact ⟨1, 0, by decide, h3.1, h3.2⟩
    · exact ⟨1, 2, by decide, h4.1, h4.2⟩
    · exact ⟨2, 0, by decide, h5.1, h5.2⟩
    · exact ⟨2, 1, by decide, h6.1, h6.2⟩
  · rintro ⟨i, j, hij, hi, hj⟩
    unfold canBarEverFit
    fin_cases i <;> fin_cases j <;> simp_all

/-! ## Rotations -/

/-- C8: `op1_TopToFront` maps the orientation (w, l, h) to (w, h, l), `op2_TopToSide` to
(h, l, w) and `op3_FrontToSide` to (l, w, h); from (2,3,4) the three in turn give (2,4,3),
(3,4,2), (4,3,2). -/
theorem rotations_permute_orientation :
    (∀ b : Bar,
      b.op1_TopToFront.getTuple = (b.w, b.h, b.l) ∧
      b.op2_TopToSide.getTuple = (b.h, b.l, b.w) ∧
      b.op3_FrontToSide.getTuple = (b.l, b.w, b.h)) ∧
    (∀ w l h : ℚ,
      (Bar.new w l h).op1_TopToFront.getTuple = (w, h, l) ∧
      (Bar.new w l h).op2_TopToSide.getTuple = (h, l, w) ∧
      (Bar.new w l h).op3_FrontToSide.getTuple = (l, w, h)) ∧
    (Bar.new 2 3 4).op1_TopToFront.getTuple = (2, 4, 3) ∧
    (Bar.new 2 3 4).op1_TopToFront.op2_TopToSide.getTuple = (3, 4, 2) ∧
    (Bar.new 2 3 4).op1_TopToFront.op2_TopToSide.op3_FrontToSide.getTuple = (4, 3, 2) := by
  refine ⟨fun b => ⟨rfl, rfl, rfl⟩, fun w l h => ⟨rfl, rfl, rfl⟩, rfl, rfl, rfl⟩

/-- C9: each of the three rotations applied twice gives back the same `Bar`, in all its
fields. -/
theorem rotation_involutive (b : Bar) (r : Op) : (b.rotate r).rotate r = b ∧
    b.op1_TopToFront.op1_TopToFront = b ∧
    b.op2_TopToSide.op2_TopToSide = b ∧
    b.op3_FrontToSide.op3_FrontToSide = b := by
  refine ⟨?_, rfl, rfl, rfl⟩
  cases r <;> rfl

/-- C10: after any finite sequence of rotations of a bar constructed from (w, l, h), the
volume field is unchanged, equal to `w * l * h` and to the product of the current extents;
`Bar(2,3,4)` keeps volume 24 through op1, op2, op3. -/
theorem volume_invariant_under_rotations :
    (∀ (w l h : ℚ) (ops : List Op),
      ((Bar.new w l h).rotateAll ops).volume = (Bar.new w l h).volume ∧
      ((Bar.new w l h).rotateAll ops).volume = w * l * h ∧
      ((Bar.new w l h).rotateAll ops).w * ((Bar.new w l h).rotateAll ops).l
        * ((Bar.new w l h).rotateAll ops).h = ((Bar.new w l h).rotateAll ops).volume) ∧
    (Bar.new 2 3 4).volume = 24 ∧
    ((Bar.new 2 3 4).rotateAll [Op.op1, Op.op2, Op.op3]).volume = 24 := by
  refine ⟨?_, by norm_num [Bar.new], by norm_num [Bar.new, Bar.rotateAll, Bar.rotate,
    Bar.op1_TopToFront, Bar.op2_TopToSide, Bar.op3_FrontToSide]⟩
  intro w l h ops
  have key : ∀ (ops : List Op) (b : Bar), b.w * b.l * b.h = b.volume →
      (b.rotateAll ops).volume = b.volume ∧
      (b.rotateAll ops).w * (b.rotateAll ops).l * (b.rotateAll ops).h
        = (b.rotateAll ops).volume := by
    intro ops
    induction ops with
    | nil => intro b hb; exact ⟨rfl, hb⟩
    | cons o os ih =>
      intro b hb
      have hstep : (b.rotate o).w * (b.rotate o).l * (b.rotate o).h = (b.rotate o).volume
          ∧ (b.rotate o).volume = b.volume := by
        cases o
        · exact ⟨by show b.w * b.h * b.l = b.volume; rw [← hb]; ring, rfl⟩
        · exact ⟨by show b.h * b.l * b.w = b.volume; rw [← hb]; ring, rfl⟩
        · exact ⟨by show b.l * b.w * b.h = b.volume; rw [← hb]; ring, rfl⟩
      have h2 := ih (b.rotate o) hstep.1
      simp only [Bar.rotateAll, List.foldl_cons] at h2 ⊢
      exact ⟨h2.1.trans hstep.2, h2.2⟩
  have hk := key ops (Bar.new w l h) rfl
  exact ⟨hk.1, hk.1.trans rfl, hk.2⟩

/-! ## Admission decisions -/

/-- A feasible bar whose volume equals half of the remaining volume is loaded: window
10 x 10, hold 1000, bar (20, 5, 5) of volume 500. -/
theorem test_boundary_half :
    processBars 7 (State.new 1000 10 10 true) [(20, 5, 5)]
      = some ⟨1000, 500, 10, 10, 500, 0, true⟩ := by
  norm_num [processBars, processBar, State.new, Bar.new, canBarEverFit, bfsLoop, Search.init,
    setInsert, expand, explore, Bar.rotate, Bar.getTuple, Bar.op1_TopToFront,
    Bar.op2_TopToSide, Bar.op3_FrontToSide]

/-- C5: `remainingVolume = holdVolume - totalLoadedVolume` holds right after construction,
is preserved by every `processBar` call (which returns, given fuel for seven tests of the
loop condition), and so holds after any finite sequence of calls on a fresh engine. -/
theorem remaining_eq_hold_sub_loaded (fuel : Nat) (hfuel : 7 ≤ fuel) :
    (∀ (vol winW winH : ℚ) (quiet : Bool),
      (State.new vol winW winH quiet).remainingVolume
        = (State.new vol winW winH quiet).holdVolume
          - (State.new vol winW winH quiet).totalLoadedVolume) ∧
    (∀ (c : State) (w l h : ℚ),
      c.remainingVolume = c.holdVolume - c.totalLoadedVolume →
      ∃ c' d, processBar fuel c w l h = some (c', d) ∧
        c'.remainingVolume = c'.holdVolume - c'.totalLoadedVolume) ∧
    (∀ (vol winW winH : ℚ) (quiet : Bool) (bars : List (ℚ × ℚ × ℚ)),
      ∃ c', processBars fuel (State.new vol winW winH quiet) bars = some c' ∧
        c'.remainingVolume = c'.holdVolume - c'.totalLoadedVolume) := by
  refine ⟨?_, ?_, ?_⟩
  · intro vol winW winH quiet
    simp [State.new]
  · intro c w l h hinv
    obtain ⟨c', d, hp, hh, _, _, _, _, hcase⟩ := processBar_effect fuel hfuel c w l h
    refine ⟨c', d, hp, ?_⟩
    rcases hcase with ⟨_, h1, h2, _⟩ | ⟨_, h1, h2, _⟩
    · rw [h1, h2, hh, hinv]; ring
    · rw [h1, h2, hh, hinv]
  · intro vol winW winH quiet bars
    obtain ⟨c', hp, hh, _, hrem⟩ :=
      processBars_effect fuel hfuel bars (State.new vol winW winH quiet)
    refine ⟨c', hp, ?_⟩
    have e : c'.remainingVolume + c'.totalLoadedVolume = c'.holdVolume := by
      rw [hrem, hh]
      simp [State.new]
    rw [← e]; ring

/-- Witness of C5: after the four bars of the test scenario remaining is 750, the hold 1000
and loaded 250. -/
theorem remaining_eq_hold_sub_loaded_witness :
    7 ≤ 7 ∧
    ∃ c', processBars 7 (State.new 1000 10 10 true)
        [(5, 5, 5), (20, 5, 5), (11, 11, 11), (5, 5, 5)] = some c' ∧
      c'.remainingVolume = c'.holdVolume - c'.totalLoadedVolume ∧
      c'.remainingVolume = 750 ∧ c'.holdVolume = 1000 ∧ c'.totalLoadedVolume = 250 := by
  obtain ⟨c', hp, hinv⟩ := (remaining_eq_hold_sub_loaded 7 (le_refl 7)).2.2 1000 10 10 true
    [(5, 5, 5), (20, 5, 5), (11, 11, 11), (5, 5, 5)]
  have hrun := test3_load_drop.2.2.2
  rw [hrun] at hp
  cases hp
  exact ⟨le_refl 7, _, hrun, hinv, rfl, rfl, rfl⟩

/-- C6, amended: over exact arithmetic (the operations on `double` taken without rounding),
every `processBar` call adds the volume of the bar to exactly one of `totalLoadedVolume` and
`totalDroppedVolume` and leaves the other unchanged (it is loaded or it is dropped), and
after any finite list of bars processed by a fresh engine
`totalLoadedVolume + totalDroppedVolume` is the sum of `w * l * h` over the list. -/
theorem loaded_add_dropped_eq_total (fuel : Nat) (hfuel : 7 ≤ fuel) :
    (∀ (c : State) (w l h : ℚ),
      ∃ c' d, processBar fuel c w l h = some (c', d) ∧
        (((∃ b path, d = Decision.loaded b path) ∧
            c'.totalLoadedVolume = c.totalLoadedVolume + w * l * h ∧
            c'.totalDroppedVolume = c.totalDroppedVolume) ∨
         ((d = Decision.dropNoFit ∨ d = Decision.dropVolume) ∧
            c'.totalLoadedVolume = c.totalLoadedVolume ∧
            c'.totalDroppedVolume = c.totalDroppedVolume + w * l * h))) ∧
    (∀ (vol winW winH : ℚ) (quiet : Bool) (bars : List (ℚ × ℚ × ℚ)),
      ∃ c', processBars fuel (State.new vol winW winH quiet) bars = some c' ∧
        c'.totalLoadedVolume + c'.totalDroppedVolume = totalVolume bars) := by
  refine ⟨?_, ?_⟩
  · intro c w l h
    obtain ⟨c', d, hp, _, _, _, _, _, hcase⟩ := processBar_effect fuel hfuel c w l h
    refine ⟨c', d, hp, ?_⟩
    rcases hcase with ⟨hd, _, h2, h3⟩ | ⟨hd, _, h2, h3⟩
    · exact Or.inl ⟨hd, h2, h3⟩
    · exact Or.inr ⟨hd, h2, h3⟩
  · intro vol winW winH quiet bars
    obtain ⟨c', hp, _, hsum, _⟩ :=
      processBars_effect fuel hfuel bars (State.new vol winW winH quiet)
    refine ⟨c', hp, ?_⟩
    rw [hsum]
    simp [State.new]

/-- Witness of C6: the four bars of the test scenario end with loaded 250 and dropped 1831,
and 250 + 1831 = 125 + 500 + 1331 + 125. -/
theorem loaded_add_dropped_eq_total_witness :
    7 ≤ 7 ∧
    ∃ c', processBars 7 (State.new 1000 10 10 true)
        [(5, 5, 5), (20, 5, 5), (11, 11, 11), (5, 5, 5)] = some c' ∧
      c'.totalLoadedVolume = 250 ∧ c'.totalDroppedVolume = 1831 ∧
      c'.totalLoadedVolume + c'.totalDroppedVolume = 125 + 500 + 1331 + 125 := by
  obtain ⟨c', hp, hsum⟩ := (loaded_add_dropped_eq_total 7 (le_refl 7)).2 1000 10 10 true
    [(5, 5, 5), (20, 5, 5), (11, 11, 11), (5, 5, 5)]
  have hrun := test3_load_drop.2.2.2
  have hc := hp
  rw [hrun] at hc
  cases hc
  refine ⟨le_refl 7, _, hrun, rfl, rfl, ?_⟩
  rw [hsum]
  norm_num [totalVolume]

/-! ## The search never fails on a feasible bar -/

/-- C7: when `canBarEverFit` is true, the search loop started on the bar, with fuel for seven
tests of its condition, returns from inside on a dequeued orientation that passes the
success test, so the queue does not run empty; and no `processBar` call, on any state and
bar, ends in the fault branch. Equal extents are not excluded. -/
theorem search_succeeds_when_feasible (fuel : Nat) (hfuel : 7 ≤ fuel) :
    (∀ (c : State) (w l h : ℚ), canBarEverFit c w l h = true →
      ∃ b path, bfsLoop c.windowWidth c.windowHeight fuel (Search.init (Bar.new w l h))
          = some (some (b, path)) ∧
        b.w ≤ c.windowWidth ∧ b.h ≤ c.windowHeight) ∧
    (∀ (c : State) (w l h : ℚ),
      ∃ c' d, processBar fuel c w l h = some (c', d) ∧ d ≠ Decision.logicError) := by
  refine ⟨?_, ?_⟩
  · intro c w l h hfit
    obtain ⟨r, hr, hnone, hsome⟩ :=
      bfsLoop_init c.windowWidth c.windowHeight (Bar.new w l h) fuel hfuel
    cases r with
    | none =>
      obtain ⟨t, ht, hgoal⟩ := (canBarEverFit_iff_perm_fits c w l h).1 hfit
      exact absurd hgoal (hnone rfl t ht)
    | some x =>
      obtain ⟨b, path⟩ := x
      exact ⟨b, path, hr, (hsome b path rfl).1⟩
  · intro c w l h
    obtain ⟨c', d, hp, _, _, _, _, hd, _⟩ := processBar_effect fuel hfuel c w l h
    exact ⟨c', d, hp, hd⟩

/-- Witness of C7: window 10 x 10 and the bar (20, 5, 5), with two equal extents: the search
stops on an orientation of width and height at most 10. -/
theorem search_succeeds_when_feasible_witness :
    7 ≤ 7 ∧ canBarEverFit (State.new 1000 10 10 true) 20 5 5 = true ∧
    ∃ b path, bfsLoop 10 10 7 (Search.init (Bar.new 20 5 5)) = some (some (b, path)) ∧
      b.w ≤ 10 ∧ b.h ≤ 10 := by
  have hfit : canBarEverFit (State.new 1000 10 10 true) 20 5 5 = true := by
    norm_num [canBarEverFit, State.new]
  exact ⟨le_refl 7, hfit,
    (search_succeeds_when_feasible 7 (le_refl 7)).1 (State.new 1000 10 10 true) 20 5 5 hfit⟩

/-! ## Monotone counters, symmetry and frame -/

/-- C12: `canBarEverFit` gives the same result on each of the six orders of its three
arguments. -/
theorem canBarEverFit_perm_invariant (c : State) (d1 d2 d3 : ℚ) :
    canBarEverFit c d1 d3 d2 = canBarEverFit c d1 d2 d3 ∧
    canBarEverFit c d2 d1 d3 = canBarEverFit c d1 d2 d3 ∧
    canBarEverFit c d2 d3 d1 = canBarEverFit c d1 d2 d3 ∧
    canBarEverFit c d3 d1 d2 = canBarEverFit c d1 d2 d3 ∧
    canBarEverFit c d3 d2 d1 = canBarEverFit c d1 d2 d3 ∧
    (∀ t ∈ perms6 (d1, d2, d3), canBarEverFit c t.1 t.2.1 t.2.2 = canBarEverFit c d1 d2 d3) := by
  have key : ∀ a b e : ℚ, canBarEverFit c a e b = canBarEverFit c a b e ∧
      canBarEverFit c b a e = canBarEverFit c a b e := by
    intro a b e
    constructor <;>
    · rw [Bool.eq_iff_iff]
      unfold canBarEverFit
      simp only []
      split_ifs <;> simp_all
  have h1 := (key d1 d2 d3).1
  have h2 := (key d1 d2 d3).2
  have h3 : canBarEverFit c d2 d3 d1 = canBarEverFit c d1 d2 d3 :=
    ((key d2 d1 d3).1).trans h2
  have h4 : canBarEverFit c d3 d1 d2 = canBarEverFit c d1 d2 d3 :=
    ((key d1 d3 d2).2).trans h1
  have h5 : canBarEverFit c d3 d2 d1 = canBarEverFit c d1 d2 d3 :=
    ((key d3 d1 d2).1).trans h4
  refine ⟨h1, h2, h3, h4, h5, ?_⟩
  intro t ht
  simp only [perms6, List.mem_cons, List.mem_singleton, List.not_mem_nil, or_false] at ht
  rcases ht with rfl | rfl | rfl | rfl | rfl | rfl
  · rfl
  · exact h1
  · exact h5
  · exact h2
  · exact h3
  · exact h4

/-- C13: after `processBar` (with fuel for seven tests of the loop condition) the fields
`holdVolume`, `windowWidth` and `windowHeight` have their values from before the call, and a
call of `canBarEverFit` leaves the whole engine as it was. -/
theorem constants_unchanged (fuel : Nat) (hfuel : 7 ≤ fuel) (c : State) (w l h : ℚ) :
    (∃ c' d, processBar fuel c w l h = some (c', d) ∧
      c'.holdVolume = c.holdVolume ∧ c'.windowWidth = c.windowWidth ∧
      c'.windowHeight = c.windowHeight) ∧
    (canBarEverFitCall c w l h).2 = c := by
  obtain ⟨c', d, hp, h1, h2, h3, _⟩ := processBar_effect fuel hfuel c w l h
  exact ⟨⟨c', d, hp, h1, h2, h3⟩, rfl⟩

/-- Witness of C13: window 10 x 10, hold 1000, the bar (5, 5, 5). -/
theorem constants_unchanged_witness :
    7 ≤ 7 ∧
    ∃ c' d, processBar 7 (State.new 1000 10 10 true) 5 5 5 = some (c', d) ∧
      c'.holdVolume = 1000 ∧ c'.windowWidth = 10 ∧ c'.windowHeight = 10 := by
  obtain ⟨⟨c', d, hp, h1, h2, h3⟩, _⟩ :=
    constants_unchanged 7 (le_refl 7) (State.new 1000 10 10 true) 5 5 5
  exact ⟨le_refl 7, c', d, hp, h1, h2, h3⟩

/-! ## The hold is never filled -/

/-- C18: `processBar` on any rearrangement of (w, l, h) gives the same engine state as on
(w, l, h) itself (with fuel for seven tests of the loop condition); only the rotation path
in the decision may differ. -/
theorem processBar_orientation_independent (fuel : Nat) (hfuel : 7 ≤ fuel) (c : State)
    (w l h : ℚ) (t : ℚ × ℚ × ℚ) (ht : t ∈ perms6 (w, l, h)) :
    ∃ c' d d', processBar fuel c w l h = some (c', d) ∧
      processBar fuel c t.1 t.2.1 t.2.2 = some (c', d') := by
  have hvol : t.1 * t.2.1 * t.2.2 = w * l * h := volume_of_mem_perms6 t (w, l, h) ht
  have hsame := canBarEverFit_of_mem_perms6 c t w l h ht
  cases hfit : canBarEverFit c w l h with
  | false =>
    rw [hfit] at hsame
    refine ⟨_, _, Decision.dropNoFit, processBar_of_not_fit fuel c w l h hfit, ?_⟩
    rw [processBar_of_not_fit fuel c t.1 t.2.1 t.2.2 hsame, hvol]
  | true =>
    rw [hfit] at hsame
    by_cases hbig : w * l * h > 0.5 * c.remainingVolume
    · refine ⟨_, _, Decision.dropVolume, processBar_of_too_big fuel c w l h hfit hbig, ?_⟩
      rw [processBar_of_too_big fuel c t.1 t.2.1 t.2.2 hsame (by rw [hvol]; exact hbig), hvol]
    · obtain ⟨b, path, hp, _⟩ := processBar_of_admitted fuel hfuel c w l h hfit hbig
      obtain ⟨b', path', hp', _⟩ := processBar_of_admitted fuel hfuel c t.1 t.2.1 t.2.2 hsame
        (by rw [hvol]; exact hbig)
      refine ⟨_, _, Decision.loaded b' path', hp, ?_⟩
      rw [hp', hvol]

/-- Witness of C18: window 10 x 10, hold 1000: the bar (20, 5, 5) and its rearrangement
(5, 20, 5) leave the same engine state. -/
theorem processBar_orientation_independent_witness :
    7 ≤ 7 ∧ ((5 : ℚ), (20 : ℚ), (5 : ℚ)) ∈ perms6 (20, 5, 5) ∧
    ∃ c' d d', processBar 7 (State.new 1000 10 10 true) 20 5 5 = some (c', d) ∧
      processBar 7 (State.new 1000 10 10 true) 5 20 5 = some (c', d') := by
  have hmem : ((5 : ℚ), (20 : ℚ), (5 : ℚ)) ∈ perms6 (20, 5, 5) := by
    simp [perms6]
  exact ⟨le_refl 7, hmem, processBar_orientation_independent 7 (le_refl 7)
    (State.new 1000 10 10 true) 20 5 5 (5, 20, 5) hmem⟩

/-! ## The sorted test -/

/-- C19: `canBarEverFit` agrees with the sorted test: it is true exactly when the smallest
extent is at most min(windowWidth, windowHeight) and the median extent is at most
max(windowWidth, windowHeight); the largest extent does not occur in the test. Smallest,
median and largest are in order and are a rearrangement of the three extents. -/
theorem canBarEverFit_eq_sortedFitTest (c : State) (d1 d2 d3 : ℚ) :
    canBarEverFit c d1 d2 d3 = sortedFitTest c d1 d2 d3 ∧
    (canBarEverFit c d1 d2 d3 = true ↔
      smallestExtent d1 d2 d3 ≤ min c.windowWidth c.windowHeight ∧
        medianExtent d1 d2 d3 ≤ max c.windowWidth c.windowHeight) ∧
    smallestExtent d1 d2 d3 ≤ medianExtent d1 d2 d3 ∧
    medianExtent d1 d2 d3 ≤ largestExtent d1 d2 d3 ∧
    (smallestExtent d1 d2 d3, medianExtent d1 d2 d3, largestExtent d1 d2 d3)
      ∈ perms6 (d1, d2, d3) := by
  have hiff : canBarEverFit c d1 d2 d3 = true ↔
      smallestExtent d1 d2 d3 ≤ min c.windowWidth c.windowHeight ∧
        medianExtent d1 d2 d3 ≤ max c.windowWidth c.windowHeight := by
    rw [canBarEverFit_iff_perm_fits]
    simp only [perms6, fitsWindow, List.mem_cons, List.mem_singleton, List.not_mem_nil,
      or_false, exists_eq_or_imp, exists_eq_left, smallestExtent, medianExtent, min_def,
      max_def]
    split_ifs <;> constructor <;>
      first
      | (rintro (h | h | h | h | h | h) <;> constructor <;> linarith)
      | (rintro ⟨ha, hb⟩
         first
         | exact Or.inl ⟨by linarith, by linarith⟩
         | exact Or.inr (Or.inl ⟨by linarith, by linarith⟩)
         | exact Or.inr (Or.inr (Or.inl ⟨by linarith, by linarith⟩))
         | exact Or.inr (Or.inr (Or.inr (Or.inl ⟨by linarith, by linarith⟩)))
         | exact Or.inr (Or.inr (Or.inr (Or.inr (Or.inl ⟨by linarith, by linarith⟩))))
         | exact Or.inr (Or.inr (Or.inr (Or.inr (Or.inr ⟨by linarith, by linarith⟩)))))
  refine ⟨?_, hiff, ?_, ?_, ?_⟩
  · rw [Bool.eq_iff_iff, hiff]
    simp [sortedFitTest]
  · simp only [smallestExtent, medianExtent, min_def, max_def]
    split_ifs <;> linarith
  · simp only [largestExtent, medianExtent, min_def, max_def]
    split_ifs <;> linarith
  · simp only [smallestExtent, medianExtent, largestExtent, min_def, max_def, perms6]
    split_ifs <;> simp <;> (try constructor) <;> linarith

/-! ## The orientation search: result, length and termination -/

/-- C14: when the search returns a bar with a rotation path of n steps, the bar is the start
rotated along that path, n is 0 if the starting orientation already fits, and no sequence
of fewer than n rotations of (w, l, h) gives an orientation whose width and height fit the
window. -/
theorem search_path_minimal (windowWidth windowHeight w l h : ℚ) (fuel : Nat) (b : Bar)
    (path : List Op)
    (hres : bfsLoop windowWidth windowHeight fuel (Search.init (Bar.new w l h))
      = some (some (b, path))) :
    b = (Bar.new w l h).rotateAll path ∧
    (w ≤ windowWidth ∧ h ≤ windowHeight → path.length = 0) ∧
    (∀ ops : List Op, ops.length < path.length →
      ¬ (((Bar.new w l h).rotateAll ops).w ≤ windowWidth ∧
        ((Bar.new w l h).rotateAll ops).h ≤ windowHeight)) := by
  obtain ⟨_, hb, _, hmin, _⟩ :=
    bfsLoop_init_result windowWidth windowHeight (Bar.new w l h) fuel b path hres
  refine ⟨hb, ?_, hmin⟩
  intro hfit
  by_contra hne
  exact hmin [] (Nat.pos_of_ne_zero hne) hfit

/-- Witness of C14: window 10 x 5 and the bar (3, 6, 11): the search returns after the two
rotations op1, op2, and no sequence of fewer than two rotations fits. -/
theorem search_path_minimal_witness :
    bfsLoop 10 5 7 (Search.init (Bar.new 3 6 11))
      = some (some (⟨6, 11, 3, 3, 6, 11, 198⟩, [Op.op1, Op.op2])) ∧
    ∀ ops : List Op, ops.length < [Op.op1, Op.op2].length →
      ¬ (((Bar.new 3 6 11).rotateAll ops).w ≤ 10 ∧ ((Bar.new 3 6 11).rotateAll ops).h ≤ 5) :=
  ⟨test_search_two_steps,
    (search_path_minimal 10 5 3 6 11 7 _ _ test_search_two_steps).2.2⟩

/-- C15: when `processBar` loads a bar (w, l, h), the orientation on which the search
stopped is a rearrangement of (w, l, h), its width is at most `windowWidth` and its height
at most `windowHeight`, it is the start rotated along the logged path, and `canBarEverFit`
is true on (w, l, h). -/
theorem loaded_orientation_fits (fuel : Nat) (c c' : State) (w l h : ℚ) (b : Bar)
    (path : List Op) (hp : processBar fuel c w l h = some (c', Decision.loaded b path)) :
    b.getTuple ∈ perms6 (w, l, h) ∧ List.Perm [b.w, b.l, b.h] [w, l, h] ∧
    b.w ≤ c.windowWidth ∧ b.h ≤ c.windowHeight ∧
    b = (Bar.new w l h).rotateAll path ∧ canBarEverFit c w l h = true := by
  obtain ⟨hfit, _, _, hr⟩ := processBar_loaded_inv fuel c c' w l h b path hp
  obtain ⟨hgoal, hb, hperm, _, _⟩ :=
    bfsLoop_init_result c.windowWidth c.windowHeight (Bar.new w l h) fuel b path hr
  exact ⟨hperm, perm_of_mem_perms6 b.getTuple (w, l, h) hperm, hgoal.1, hgoal.2, hb, hfit⟩

/-- Witness of C15: window 10 x 10, hold 1000: the bar (20, 5, 5) is loaded in the
orientation (5, 20, 5), after op3. -/
theorem loaded_orientation_fits_witness :
    processBar 7 (State.new 1000 10 10 true) 20 5 5
      = some (⟨1000, 500, 10, 10, 500, 0, true⟩,
          Decision.loaded ⟨5, 20, 5, 20, 5, 5, 500⟩ [Op.op3]) ∧
    ((5 : ℚ), (20 : ℚ), (5 : ℚ)) ∈ perms6 (20, 5, 5) ∧
    canBarEverFit (State.new 1000 10 10 true) 20 5 5 = true := by
  have hp : processBar 7 (State.new 1000 10 10 true) 20 5 5
      = some (⟨1000, 500, 10, 10, 500, 0, true⟩,
          Decision.loaded ⟨5, 20, 5, 20, 5, 5, 500⟩ [Op.op3]) := by
    norm_num [processBar, State.new, Bar.new, canBarEverFit, bfsLoop, Search.init,
      setInsert, expand, explore, Bar.rotate, Bar.getTuple, Bar.op1_TopToFront,
      Bar.op2_TopToSide, Bar.op3_FrontToSide]
  have hall := loaded_orientation_fits 7 (State.new 1000 10 10 true) _ 20 5 5 _ _ hp
  exact ⟨hp, hall.1, hall.2.2.2.2.2⟩

/-- C16: the search ends for every bar and window, with or without a goal: seven tests of
the loop condition, hence at most six dequeued states, are enough. Every sequence of
rotations leads to one of the six rearrangements of the start; at every test of the loop
condition `visited` has no repetition, holds only such rearrangements, so at most six
triples, and the queue is empty from the sixth pass on. -/
theorem search_terminates_within_six (fuel : Nat) (hfuel : 7 ≤ fuel)
    (windowWidth windowHeight : ℚ) (bar : Bar) :
    (∃ r, bfsLoop windowWidth windowHeight fuel (Search.init bar) = some r) ∧
    (∀ ops : List Op, (bar.rotateAll ops).getTuple ∈ perms6 bar.getTuple) ∧
    (perms6 bar.getTuple).length = 6 ∧
    (∀ (n : Nat) (s : Search), bfsStateAt windowWidth windowHeight bar n = some s →
      s.visited.Nodup ∧ (∀ t ∈ s.visited, t ∈ perms6 bar.getTuple) ∧
      s.visited.length ≤ 6 ∧ (s.q ≠ [] → n < 6)) ∧
    (∀ (n : Nat) (s s' : Search), bfsStateAt windowWidth windowHeight bar n = some s →
      bfsNext windowWidth windowHeight s = some s' →
      bfsStateAt windowWidth windowHeight bar (n + 1) = some s' ∧
      ∀ k, bfsLoop windowWidth windowHeight (k + 1) s
        = bfsLoop windowWidth windowHeight k s') := by
  refine ⟨?_, ?_, perms6_length _, ?_, ?_⟩
  · obtain ⟨r, hr, _⟩ := bfsLoop_init windowWidth windowHeight bar fuel hfuel
    exact ⟨r, hr⟩
  · intro ops
    exact rotateAll_getTuple_mem_perms6 bar.getTuple ops bar (self_mem_perms6 _)
  · intro n s hs
    obtain ⟨hinv, hlen⟩ := bfsStateAt_inv windowWidth windowHeight bar n s hs
    have hle := hinv.visited_length_le
    refine ⟨hinv.nodup, hinv.visited_perm, hle, ?_⟩
    intro hq
    have hpos : 0 < s.q.length := List.length_pos.2 hq
    omega
  · intro n s s' hs hnext
    refine ⟨?_, fun k => bfsLoop_of_next windowWidth windowHeight s s' k hnext⟩
    simp only [bfsStateAt, hs, Option.some_bind]
    exact hnext

/-- Witness of C16: window 10 x 5 and the bar (11, 6, 7), which fits in no orientation: the
loop still ends within seven tests of its condition. -/
theorem search_terminates_within_six_witness :
    7 ≤ 7 ∧ canBarEverFit (State.new 1000 10 5 true) 11 6 7 = false ∧
    ∃ r, bfsLoop 10 5 7 (Search.init (Bar.new 11 6 7)) = some r :=
  ⟨le_refl 7, test2_canBarEverFit.2.2.2,
    (search_terminates_within_six 7 (le_refl 7) 10 5 (Bar.new 11 6 7)).1⟩

/-- C20: when `canBarEverFit` is true the search (with fuel for seven tests of the loop
condition) returns a bar that is the start after the 0, 1 or 2 rotations of the returned
path, and that bar passes the success test. -/
theorem search_path_at_most_two (fuel : Nat) (hfuel : 7 ≤ fuel) (c : State) (w l h : ℚ)
    (hfit : canBarEverFit c w l h = true) :
    ∃ b path, bfsLoop c.windowWidth c.windowHeight fuel (Search.init (Bar.new w l h))
        = some (some (b, path)) ∧
      path.length ≤ 2 ∧ b = (Bar.new w l h).rotateAll path ∧
      b.w ≤ c.windowWidth ∧ b.h ≤ c.windowHeight := by
  obtain ⟨r, hr, hnone, _⟩ :=
    bfsLoop_init c.windowWidth c.windowHeight (Bar.new w l h) fuel hfuel
  cases r with
  | none =>
    obtain ⟨t, ht, hgoal⟩ := (canBarEverFit_iff_perm_fits c w l h).1 hfit
    exact absurd hgoal (hnone rfl t ht)
  | some x =>
    obtain ⟨b, path⟩ := x
    obtain ⟨hgoal, hb, _, _, hlen⟩ :=
      bfsLoop_init_result c.windowWidth c.windowHeight (Bar.new w l h) fuel b path hr
    exact ⟨b, path, hr, hlen, hb, hgoal.1, hgoal.2⟩

/-- Witness of C20: window 10 x 5 and the bar (3, 6, 11), feasible: the returned path has at
most two rotations. -/
theorem search_path_at_most_two_witness :
    7 ≤ 7 ∧ canBarEverFit (State.new 1000 10 5 true) 3 6 11 = true ∧
    ∃ b path, bfsLoop 10 5 7 (Search.init (Bar.new 3 6 11)) = some (some (b, path)) ∧
      path.length ≤ 2 ∧ b = (Bar.new 3 6 11).rotateAll path ∧ b.w ≤ 10 ∧ b.h ≤ 5 :=
  ⟨le_refl 7, test2_canBarEverFit.2.2.1,
    search_path_at_most_two 7 (le_refl 7) (State.new 1000 10 5 true) 3 6 11
      test2_canBarEverFit.2.2.1⟩

/-! ## Where rounding shows: the counters in `double` -/

/-- The rounding function on known values: 0.1 is stored as 3602879701896397 / 2 ^ 55, an
integer below 2 ^ 53 is kept, 2 ^ 53 + 1 is a tie and goes to the even 2 ^ 53, 2 ^ 53 + 3 goes
to 2 ^ 53 + 4, and half of the smallest subnormal goes to 0. -/
theorem test_roundDouble :
    roundDouble (1 / 10) = 3602879701896397 / 36028797018963968 ∧
    roundDouble 1831 = 1831 ∧
    roundDouble (2 ^ 53 + 1) = 2 ^ 53 ∧
    roundDouble (2 ^ 53 + 3) = 2 ^ 53 + 4 ∧
    roundDouble (-(2 ^ 53 + 3)) = -(2 ^ 53 + 4) ∧
    roundDouble (1 - (1 / 2) ^ 54) = 1 ∧
    roundDouble ((1 / 2) ^ 1075) = 0 := by
  decide!

/-- Test 3 of `main` on the rounded code: the same four states, here without tolerance. -/
theorem test3_load_drop_double :
    processBarsDouble 7 (State.new 1000 10 10 true) [(5, 5, 5)]
      = some ⟨1000, 875, 10, 10, 125, 0, true⟩ ∧
    processBarsDouble 7 (State.new 1000 10 10 true) [(5, 5, 5), (20, 5, 5)]
      = some ⟨1000, 875, 10, 10, 125, 500, true⟩ ∧
    processBarsDouble 7 (State.new 1000 10 10 true) [(5, 5, 5), (20, 5, 5), (11, 11, 11)]
      = some ⟨1000, 875, 10, 10, 125, 1831, true⟩ ∧
    processBarsDouble 7 (State.new 1000 10 10 true)
        [(5, 5, 5), (20, 5, 5), (11, 11, 11), (5, 5, 5)]
      = some ⟨1000, 750, 10, 10, 250, 1831, true⟩ := by
  decide!

/-- Counterexample to C6 as stated, on the counters in `double`: hold 2 ^ 60, window
2 ^ 20 x 2 ^ 20, the bars (2 ^ 20, 2 ^ 20, 2 ^ 13) and (1, 1, 1). All inputs are `double`
values; both bars are loaded; the second load adds 1 to 2 ^ 53, which rounds back to
2 ^ 53, so the call changes neither total, and `totalLoadedVolume + totalDroppedVolume` is
2 ^ 53 while the volumes sum to 2 ^ 53 + 1. -/
theorem loaded_add_dropped_ne_total_double :
    (roundDouble (2 ^ 60) = 2 ^ 60 ∧ roundDouble (2 ^ 20) = 2 ^ 20 ∧
      roundDouble (2 ^ 13) = 2 ^ 13 ∧ roundDouble 1 = 1) ∧
    processBarsDouble 7 (State.new (2 ^ 60) (2 ^ 20) (2 ^ 20) true)
        [(2 ^ 20, 2 ^ 20, 2 ^ 13), (1, 1, 1)]
      = some ⟨2 ^ 60, 2 ^ 60 - 2 ^ 53, 2 ^ 20, 2 ^ 20, 2 ^ 53, 0, true⟩ ∧
    processBarDouble 7 ⟨2 ^ 60, 2 ^ 60 - 2 ^ 53, 2 ^ 20, 2 ^ 20, 2 ^ 53, 0, true⟩ 1 1 1
      = some (⟨2 ^ 60, 2 ^ 60 - 2 ^ 53, 2 ^ 20, 2 ^ 20, 2 ^ 53, 0, true⟩,
          Decision.loaded ⟨1, 1, 1, 1, 1, 1, 1⟩ []) ∧
    totalVolume [(2 ^ 20, 2 ^ 20, 2 ^ 13), (1, 1, 1)] = 2 ^ 53 + 1 ∧
    (⟨2 ^ 60, 2 ^ 60 - 2 ^ 53, 2 ^ 20, 2 ^ 20, 2 ^ 53, 0, true⟩ : State).totalLoadedVolume
      + (⟨2 ^ 60, 2 ^ 60 - 2 ^ 53, 2 ^ 20, 2 ^ 20, 2 ^ 53, 0, true⟩ : State).totalDroppedVolume
      ≠ totalVolume [(2 ^ 20, 2 ^ 20, 2 ^ 13), (1, 1, 1)] := by
  decide!

end Conveyor
